import Mathlib

set_option maxRecDepth 2000

/-!
Verification of the random-name-generation harness (Go sources
`02-generate-names/main.go` and `03-generate-names/main.go`).

The Go programs issue 15 chat requests against an Ollama server, parse each
response's content with `encoding/json` into a `Character{Name, Kind}` record,
and write the accumulated batch as a Markdown table to
`./characters.<kind>.md` with permission `0644`.  The embedding below models:

* a JSON value type together with a compact serializer (Go `json.Marshal`
  of the schema value; Go maps marshal with keys in sorted order) and a
  JSON text parser (the parsing half of Go `json.Unmarshal`);
* the field-matching semantics of `json.Unmarshal` into the two-field
  `Character` struct: JSON `null` leaves the target unchanged, a non-object
  value is rejected, object members match struct fields case-insensitively,
  members of non-string type for `name`/`kind` are rejected, unknown members
  are ignored, and missing members simply keep the zero value `""`;
* the request construction (model id, messages, decoding options, `format`
  bytes, `stream=false`), the 15-iteration batch loop with its fatal-exit
  control flow, and the Markdown table writer.

The server is an oracle `Nat → ChatRequest → ChatResult` giving, per
iteration, either a transport-level failure or the returned content text.
-/

namespace GenNames

/-- JSON values (the subset exchanged by the program: the schema document,
response contents, and decoding-option values). -/
inductive Json where
  | null : Json
  | bool (b : Bool) : Json
  | num (q : ℚ) : Json
  | str (s : String) : Json
  | arr (elems : List Json) : Json
  | obj (members : List (String × Json)) : Json

/-- Left and right curly brace characters. -/
def lbrace : Char := Char.ofNat 123
def rbrace : Char := Char.ofNat 125

/-- Decimal digits with explicit fuel (structural recursion; `n + 1` fuel
always suffices because the argument shrinks by a factor of ten). -/
def natDigitsFuel : Nat → Nat → List Char
  | 0, _ => []
  | fuel + 1, n =>
    if n < 10 then [Char.ofNat (48 + n)]
    else natDigitsFuel fuel (n / 10) ++ [Char.ofNat (48 + n % 10)]

/-- Decimal digits of a natural number, most significant first. -/
def natDigits (n : Nat) : List Char := natDigitsFuel (n + 1) n

/-- Decimal rendering of a natural number (what Go's `%d` prints for the
1-based row index). -/
def natStr (n : Nat) : String := String.mk (natDigits n)

/-- Fractional digits of a rational in `[0,1)`, up to the given fuel. -/
def fracDigits : Nat → ℚ → List Char
  | 0, _ => []
  | f + 1, q =>
    if q = 0 then []
    else
      let d : ℤ := Int.floor (q * 10)
      Char.ofNat (48 + d.toNat) :: fracDigits f (q * 10 - (d : ℚ))

/-- Decimal rendering of a rational (used by the serializer for JSON
numbers; exact for denominators dividing a power of ten, which covers every
number value the program handles). -/
def ratStr (q : ℚ) : String :=
  let a : ℚ := if q < 0 then -q else q
  let sign : String := if q < 0 then "-" else ""
  let ip : ℕ := (Int.floor a).toNat
  let ds := fracDigits 32 (a - (ip : ℚ))
  sign ++ natStr ip ++ (if ds.isEmpty then "" else "." ++ String.mk ds)

/-- JSON string-body escaping (the characters appearing in the program's
strings; Go additionally escapes HTML characters, which do not occur here). -/
def escapeChar (c : Char) : List Char :=
  if c = '"' then ['\\', '"']
  else if c = '\\' then ['\\', '\\']
  else if c = '\n' then ['\\', 'n']
  else if c = '\t' then ['\\', 't']
  else if c = '\r' then ['\\', 'r']
  else [c]

/-- Escape a whole string for JSON output, with surrounding quotes. -/
def quoteStr (s : String) : String :=
  String.mk ('"' :: (s.data.foldr (fun c acc => escapeChar c ++ acc) ['"']))

mutual

/-- Compact JSON serialization, member order as listed (Go `json.Marshal`;
for the schema the member lists below are already in Go's sorted-key map
order). -/
def Json.marshal : Json → String
  | .null => "null"
  | .bool true => "true"
  | .bool false => "false"
  | .num q => ratStr q
  | .str s => quoteStr s
  | .arr xs => "[" ++ marshalElems xs ++ "]"
  | .obj ms => String.mk [lbrace] ++ marshalMembers ms ++ String.mk [rbrace]

/-- Comma-separated serialization of array elements. -/
def marshalElems : List Json → String
  | [] => ""
  | [x] => x.marshal
  | x :: y :: xs => x.marshal ++ "," ++ marshalElems (y :: xs)

/-- Comma-separated serialization of object members. -/
def marshalMembers : List (String × Json) → String
  | [] => ""
  | [kv] => quoteStr kv.1 ++ ":" ++ kv.2.marshal
  | kv :: m :: ms => quoteStr kv.1 ++ ":" ++ kv.2.marshal ++ "," ++ marshalMembers (m :: ms)

end

/-- JSON whitespace. -/
def isWs (c : Char) : Bool := c = ' ' || c = '\t' || c = '\n' || c = '\r'

/-- Skip leading JSON whitespace. -/
def skipWs : List Char → List Char
  | [] => []
  | c :: rest => if isWs c then skipWs rest else c :: rest

/-- Unescape one backslash escape inside a JSON string. -/
def escChar (c : Char) : Option Char :=
  if c = '"' then some '"'
  else if c = '\\' then some '\\'
  else if c = '/' then some '/'
  else if c = 'n' then some '\n'
  else if c = 't' then some '\t'
  else if c = 'r' then some '\r'
  else if c = 'b' then some (Char.ofNat 8)
  else if c = 'f' then some (Char.ofNat 12)
  else none

/-- Parse the body of a JSON string after the opening quote; returns the
decoded characters and the remaining input after the closing quote. -/
def parseStringBody : List Char → Option (List Char × List Char)
  | '"' :: rest => some ([], rest)
  | '\\' :: c :: rest => do
    let e ← escChar c
    let (s, r) ← parseStringBody rest
    pure (e :: s, r)
  | c :: rest =>
    if c.toNat < 32 then none
    else do
      let (s, r) ← parseStringBody rest
      pure (c :: s, r)
  | [] => none

/-- Longest prefix of decimal digits. -/
def takeDigits : List Char → List Char × List Char
  | [] => ([], [])
  | c :: rest =>
    if c.isDigit then
      let (ds, r) := takeDigits rest
      (c :: ds, r)
    else ([], c :: rest)

/-- Numeric value of a digit list. -/
def digitsVal (ds : List Char) : Nat :=
  ds.foldl (fun n c => n * 10 + (c.toNat - 48)) 0

/-- Parse a JSON number (optional sign, integer part, optional fraction). -/
def parseNumber (input : List Char) : Option (ℚ × List Char) :=
  let signed : Bool × List Char :=
    match input with
    | '-' :: r => (true, r)
    | r => (false, r)
  let (ids, rest1) := takeDigits signed.2
  if ids.isEmpty then none
  else
    let ip : ℚ := (digitsVal ids : ℚ)
    match rest1 with
    | '.' :: r2 =>
      let (fds, rest2) := takeDigits r2
      if fds.isEmpty then none
      else
        let q := ip + (digitsVal fds : ℚ) / ((10 : ℚ) ^ fds.length)
        some (if signed.1 then -q else q, rest2)
    | _ => some (if signed.1 then -ip else ip, rest1)

mutual

/-- Parse one JSON value (fuel-bounded recursive descent). -/
def parseValue : Nat → List Char → Option (Json × List Char)
  | 0, _ => none
  | fuel + 1, input =>
    match skipWs input with
    | 'n' :: 'u' :: 'l' :: 'l' :: rest => some (.null, rest)
    | 't' :: 'r' :: 'u' :: 'e' :: rest => some (.bool true, rest)
    | 'f' :: 'a' :: 'l' :: 's' :: 'e' :: rest => some (.bool false, rest)
    | '"' :: rest =>
      match parseStringBody rest with
      | some (cs, r) => some (.str (String.mk cs), r)
      | none => none
    | '[' :: rest =>
      (match skipWs rest with
       | ']' :: r => some (.arr [], r)
       | r =>
         match parseElems fuel r with
         | some (xs, r2) => some (.arr xs, r2)
         | none => none)
    | rest =>
      match rest with
      | c :: r =>
        if c = lbrace then
          match skipWs r with
          | c2 :: r2 =>
            if c2 = rbrace then some (.obj [], r2)
            else
              match parseMembers fuel (c2 :: r2) with
              | some (ms, r3) => some (.obj ms, r3)
              | none => none
          | [] => none
        else
          match parseNumber (c :: r) with
          | some (q, r2) => some (.num q, r2)
          | none => none
      | [] => none

/-- Parse one or more comma-separated array elements up to `]`. -/
def parseElems : Nat → List Char → Option (List Json × List Char)
  | 0, _ => none
  | fuel + 1, input =>
    match parseValue fuel input with
    | none => none
    | some (j, r) =>
      match skipWs r with
      | ',' :: r2 =>
        (match parseElems fuel r2 with
         | some (xs, r3) => some (j :: xs, r3)
         | none => none)
      | ']' :: r2 => some ([j], r2)
      | _ => none

/-- Parse one or more comma-separated object members up to the closing
brace. -/
def parseMembers : Nat → List Char → Option (List (String × Json) × List Char)
  | 0, _ => none
  | fuel + 1, input =>
    match skipWs input with
    | '"' :: rest =>
      (match parseStringBody rest with
       | none => none
       | some (key, r) =>
         match skipWs r with
         | ':' :: r2 =>
           (match parseValue fuel r2 with
            | none => none
            | some (j, r3) =>
              match skipWs r3 with
              | ',' :: r4 =>
                (match parseMembers fuel r4 with
                 | some (ms, r5) => some ((String.mk key, j) :: ms, r5)
                 | none => none)
              | c :: r4 =>
                if c = rbrace then some ([(String.mk key, j)], r4) else none
              | [] => none)
         | _ => none)
    | _ => none

end

/-- Parse a complete JSON document: one value, with only whitespace allowed
afterwards (Go `json.Unmarshal` rejects trailing data). -/
def parseJson (s : String) : Option Json :=
  match parseValue (2 * s.length + 8) s.data with
  | some (j, rest) => if (skipWs rest).isEmpty then some j else none
  | none => none

/-- The `Character` struct of both Go programs:
`Name string \x60json:"name"\x60; Kind string \x60json:"kind"\x60`. -/
structure Character where
  name : String
  kind : String
deriving DecidableEq

/-- ASCII lower-casing of one character. -/
def lowerAscii (c : Char) : Char :=
  if 65 ≤ c.toNat && c.toNat ≤ 90 then Char.ofNat (c.toNat + 32) else c

/-- Go `json.Unmarshal` struct-field matching is case-insensitive
(`strings.EqualFold`; the struct keys `name`/`kind` are ASCII). -/
def keyFold (a b : String) : Bool := a.data.map lowerAscii == b.data.map lowerAscii

/-- Apply one JSON object member to a `Character` being decoded, following
Go `encoding/json`: a member matching `name`/`kind` must be a string (JSON
`null` is a no-op); unknown members are ignored. -/
def applyField (c : Character) (kv : String × Json) : Option Character :=
  if keyFold kv.1 "name" then
    match kv.2 with
    | .str s => some { c with name := s }
    | .null => some c
    | _ => none
  else if keyFold kv.1 "kind" then
    match kv.2 with
    | .str s => some { c with kind := s }
    | .null => some c
    | _ => none
  else some c

/-- Decode a parsed JSON value into a `Character` (Go `json.Unmarshal` into
the zero-valued struct): `null` leaves the zero value, non-objects are
rejected, members are applied in order (duplicates: last write wins). -/
def decodeCharacter : Json → Option Character
  | .null => some ⟨"", ""⟩
  | .obj members => members.foldlM applyField ⟨"", ""⟩
  | _ => none

/-- The program's response validation:
`json.Unmarshal([]byte(jsonStr), &character)`. -/
def unmarshalCharacter (s : String) : Option Character :=
  (parseJson s).bind decodeCharacter

/-! ## Configuration, request construction and prompt composition -/

/-- The process environment inputs the program reads (`os.Getenv`); `none`
models an unset variable, which Go's `os.Getenv` reads as `""`. -/
structure Env where
  ollamaHost : Option String
  llm : Option String

/-- One chat message: `api.Message{Role, Content}`. -/
structure Message where
  role : String
  content : String
deriving DecidableEq

/-- The outgoing chat request, `api.ChatRequest`: model id, ordered
messages, decoding options, the `format` constraint transported as raw JSON
bytes, and the streaming flag. -/
structure ChatRequest where
  model : String
  messages : List Message
  options : List (String × Json)
  format : String
  stream : Bool

/-- The persona system instructions (both programs; Go raw-string literal,
including its embedded tab indentation and trailing newline). -/
def systemInstructions : String :=
  "You are an expert NPC generator for games like D&D. \n\tYou have freedom to be creative to get the best possible output.\n\t"

/-- The style-rules system message of `03-generate-names` (Go raw-string
literal `generationInstructions`). -/
def generationInstructions : String :=
  "\n\t## Suggested Generation Rules\n\n\tFor generating consistent names, here are some guidelines:\n\n\t### Dwarves\n\t- Favor hard consonants (k, t, d, g)\n\t- Use short, punchy sounds\n\t- Incorporate references to metals, stones, forging\n\t- Clan names often hyphenated or compound words\n\t- Common suffixes: -in, -or, -ar, -im\n\n\t### Elves\n\t- Favor fluid consonants (l, n, r)\n\t- Use many vowels\n\t- Incorporate nature and star references\n\t- Names typically long and melodious\n\t- Common prefixes: El-, Cel-, Gal-\n\t- Common suffixes: -il, -iel, -or, -ion\n\n\t### Humans\n\t- Greater variety of sounds\n\t- Mix of short and long names\n\t- Can borrow elements from other races\n\t- Family names often descriptive or location-based\n\t- Common suffixes: -or, -wyn, -iel\n\t- Common prefixes: Theo-, El-, Ar-\t\n\n\t## Usage Notes\n\tNames can be modified or combined to create new variations while maintaining the essence of each race.\n\n\t### Pattern Examples\n\t- Dwarf: [Hard Consonant] + [Short Vowel] + [Hard Consonant] + [Suffix]\n\t- Elf: [Nature Word] + [Fluid Consonant] + [Long Vowel] + [Melodic Ending]\n\t- Human: [Strong Consonant] + [Vowel] + [Cultural Suffix]\n\n\t### Cultural Considerations\n\t- Dwarf names often reflect their crafts or achievements\n\t- Elf names might change throughout their long lives\n\t- Human names vary by region and social status\n\t"

/-- The hard-coded kind selector (`kind := "Dwarf"` in both programs). -/
def kindConst : String := "Dwarf"

/-- The templated user task text,
`fmt.Sprintf("Generate a random name for an %s (kind always equals %s).", kind, kind)`. -/
def userContent (kind : String) : String :=
  "Generate a random name for an " ++ kind ++ " (kind always equals " ++ kind ++ ")."

/-- Prompt of `02-generate-names` (Minimal profile): persona + user task. -/
def messagesMinimal : List Message :=
  [⟨"system", systemInstructions⟩, ⟨"user", userContent kindConst⟩]

/-- Prompt of `03-generate-names` (Guided profile): persona + style rules +
user task. -/
def messagesGuided : List Message :=
  [⟨"system", systemInstructions⟩,
   ⟨"system", generationInstructions⟩,
   ⟨"user", userContent kindConst⟩]

/-- The response schema value built by both programs.  In Go it is a
`map[string]any`; `json.Marshal` serializes Go maps with keys in sorted
order, so the member lists here are written in that (sorted) order. -/
def schemaJson : Json :=
  Json.obj
    [("properties", Json.obj
        [("kind", Json.obj [("type", Json.str "string")]),
         ("name", Json.obj [("type", Json.str "string")])]),
     ("required", Json.arr [Json.str "name", Json.str "kind"]),
     ("type", Json.str "object")]

/-- The decoding options configured by both programs (the novelty-seeking
configuration; Go map literal, one entry per configured key). -/
def decodingOptions : List (String × Json) :=
  [("temperature", Json.num 1.7),
   ("repeat_last_n", Json.num 2),
   ("repeat_penalty", Json.num 2.2),
   ("top_k", Json.num 10),
   ("top_p", Json.num 0.9)]

/-- The chat request value built once per run (`req := &api.ChatRequest{...}`
with `Format: json.RawMessage(jsonModel)` and `Stream: &noStream`). -/
def buildRequest (model : String) (msgs : List Message) : ChatRequest :=
  { model := model
    messages := msgs
    options := decodingOptions
    format := Json.marshal schemaJson
    stream := false }

/-! ## The batch driver and the run model -/

/-- Result of one chat call as seen by `generateName`: either the returned
content text, or a client/transport error (`client.Chat` returning non-nil). -/
inductive ChatResult where
  | ok (content : String) : ChatResult
  | err : ChatResult

/-- A server oracle: the response to the chat request issued at the given
iteration. -/
def Server : Type := Nat → ChatRequest → ChatResult

/-- How the batch loop left off. -/
inductive LoopStatus where
  | chatErr (i : Nat) : LoopStatus
  | parseErr (i : Nat) : LoopStatus
  | done : LoopStatus
deriving DecidableEq

/-- The classified result of iteration `i` of the loop: chat failure,
`json.Unmarshal` failure, or a validated record. -/
inductive IterRes where
  | chatFail : IterRes
  | parseFail : IterRes
  | good (c : Character) : IterRes
deriving DecidableEq

/-- Outcome of iteration `i` against a fixed request. -/
def iterOutcome (srv : Server) (req : ChatRequest) (i : Nat) : IterRes :=
  match srv i req with
  | .err => .chatFail
  | .ok content =>
    match unmarshalCharacter content with
    | none => .parseFail
    | some c => .good c

/-- Whether an iteration produced a validated record. -/
def IterRes.isGood : IterRes → Bool
  | .good _ => true
  | _ => false

/-- The `for i := 0; i < 15; i++` loop: at each iteration one request is
issued (`generateName`), the content is unmarshalled, and on any error the
process exits fatally (`log.Fatal`), keeping the records accumulated so far
unflushed.  Returns the final status, the accumulated `characters` slice,
and the list of requests issued. -/
def runLoop (srv : Server) (req : ChatRequest) :
    Nat → Nat → LoopStatus × List Character × List ChatRequest
  | _, 0 => (.done, [], [])
  | i, n + 1 =>
    match srv i req with
    | .err => (.chatErr i, [], [req])
    | .ok content =>
      match unmarshalCharacter content with
      | none => (.parseErr i, [], [req])
      | some c =>
        let r := runLoop srv req (i + 1) n
        (r.1, c :: r.2.1, req :: r.2.2)

/-- `batch_size`: the loop bound 15. -/
def batchSize : Nat := 15

/-! ## The Markdown table writer -/

/-- Header line of the table ("| Index | Name     | Kind       |\n"). -/
def tableHeader : String := "| Index | Name     | Kind       |\n"

/-- Separator line of the table. -/
def tableSeparator : String := "|------|----------|------------|\n"

/-- One data row,
`fmt.Sprintf("| %d   | %s      | %s       |\n", idx+1, character.Name, character.Kind)`. -/
def tableRow (idx : Nat) (c : Character) : String :=
  "| " ++ natStr idx ++ "   | " ++ c.name ++ "      | " ++ c.kind ++ "       |\n"

/-- The full Markdown table: header, separator, then one row per record
appended in order with 1-based indices (the Go `for idx, character := range`
loop accumulating into `markdownTable`). -/
def markdownTable (chars : List Character) : String :=
  chars.enum.foldl (fun acc ic => acc ++ tableRow (ic.1 + 1) ic.2)
    (tableHeader ++ tableSeparator)

/-! ## The whole run -/

/-- How the process ends: a fatal exit (non-zero status) from a chat or
parse error inside the loop, or normal completion (exit 0) after the file
write.  (`os.WriteFile` failure would also be fatal; the filesystem is
modelled as accepting the write.) -/
inductive Outcome where
  | fatalChat (i : Nat) : Outcome
  | fatalParse (i : Nat) : Outcome
  | completed : Outcome
deriving DecidableEq

/-- A performed file write: path, full contents, permission bits. -/
structure FileWrite where
  path : String
  content : String
  perm : Nat
deriving DecidableEq

/-- Observable result of a run: the outcome, the accumulated batch, the
file write (if reached), and the chat requests issued. -/
structure RunResult where
  outcome : Outcome
  batch : List Character
  write : Option FileWrite
  requests : List ChatRequest

/-- One whole run of `main` against an environment and a server oracle:
read `LLM` (unset reads as `""`, unchecked), build the single request, run
the 15-iteration loop, and on success write the Markdown table to
`./characters.<kind>.md` with permission `0644`. -/
def mainRun (msgs : List Message) (env : Env) (srv : Server) : RunResult :=
  let model := env.llm.getD ""
  let req := buildRequest model msgs
  let r := runLoop srv req 0 batchSize
  match r.1 with
  | .chatErr i => ⟨.fatalChat i, r.2.1, none, r.2.2⟩
  | .parseErr i => ⟨.fatalParse i, r.2.1, none, r.2.2⟩
  | .done =>
    ⟨.completed, r.2.1,
     some ⟨"./characters." ++ kindConst ++ ".md", markdownTable r.2.1, 0o644⟩,
     r.2.2⟩

/-- The run of `02-generate-names/main.go`. -/
def mainRun02 (env : Env) (srv : Server) : RunResult := mainRun messagesMinimal env srv

/-- The request `02-generate-names` builds for a given environment. -/
def req02 (env : Env) : ChatRequest := buildRequest (env.llm.getD "") messagesMinimal

/-! ## Observations on the written file: lines and newline counts -/

/-- Number of newline characters in a string; for a file whose every line is
newline-terminated this is its line count. -/
def countNl (s : String) : Nat := s.data.count '\n'

/-- Split a character list at newline characters (the final segment is the
text after the last newline; splitting never yields an empty list). -/
def splitNl : List Char → List (List Char)
  | [] => [[]]
  | c :: rest =>
    let r := splitNl rest
    if c = '\n' then [] :: r
    else (c :: r.headD []) :: r.tail

/-- The lines of a newline-terminated file: the segments between newlines,
dropping the empty segment after the final newline. -/
def fileLines (s : String) : List String :=
  ((splitNl s.data).dropLast).map String.mk

/-- Concatenation of a list of strings. -/
def concatStrs : List String → String
  | [] => ""
  | s :: ss => s ++ concatStrs ss

/-- Concatenation of a list of character lists. -/
def concatL : List (List Char) → List Char
  | [] => []
  | l :: ls => l ++ concatL ls

/-- The data-row text without its terminating newline. -/
def tableRowBody (idx : Nat) (c : Character) : String :=
  "| " ++ natStr idx ++ "   | " ++ c.name ++ "      | " ++ c.kind ++ "       |"

/-! ## Helper lemmas -/

theorem concatStrs_data (l : List String) :
    (concatStrs l).data = concatL (l.map String.data) := by
  induction l with
  | nil => rfl
  | cons s ss ih => simp [concatStrs, concatL, String.data_append, ih]

theorem foldl_append_concat (f : α → String) (l : List α) (s : String) :
    l.foldl (fun acc a => acc ++ f a) s = s ++ concatStrs (l.map f) := by
  induction l generalizing s with
  | nil => simp [concatStrs]
  | cons a as ih => simp [concatStrs, ih, String.append_assoc]

theorem tableRow_eq_body (idx : Nat) (c : Character) :
    tableRow idx c = tableRowBody idx c ++ "\n" := by
  have h : ("       |\n" : String) = "       |" ++ "\n" := rfl
  simp only [tableRow, tableRowBody, h, String.append_assoc]

theorem markdownTable_eq (chars : List Character) :
    markdownTable chars =
      (tableHeader ++ tableSeparator) ++
        concatStrs (chars.enum.map fun ic => tableRow (ic.1 + 1) ic.2) := by
  simp [markdownTable, foldl_append_concat]

theorem splitNl_line (a : List Char) (ha : '\n' ∉ a) (b : List Char) :
    splitNl (a ++ '\n' :: b) = a :: splitNl b := by
  induction a with
  | nil => simp [splitNl]
  | cons c a ih =>
    have hc : ¬ c = '\n' := fun h => ha (h ▸ List.mem_cons_self c a)
    have ha' : '\n' ∉ a := fun h => ha (List.mem_cons_of_mem c h)
    simp [splitNl, hc, ih ha']

theorem splitNl_bodies (segs : List (List Char))
    (h : ∀ b ∈ segs, '\n' ∉ b) :
    splitNl (concatL (segs.map fun b => b ++ ['\n'])) = segs ++ [[]] := by
  induction segs with
  | nil => rfl
  | cons x xs ih =>
    have hx : '\n' ∉ x := h x (List.mem_cons_self x xs)
    have hxs : ∀ y ∈ xs, '\n' ∉ y := fun y hy => h y (List.mem_cons_of_mem x hy)
    have hsplit : concatL ((x :: xs).map fun l => l ++ ['\n'])
        = x ++ '\n' :: concatL (xs.map fun l => l ++ ['\n']) := by
      simp [concatL]
    rw [hsplit, splitNl_line x hx, ih hxs]
    rfl

theorem nl_not_mem_natDigitsFuel (fuel : Nat) :
    ∀ n, '\n' ∉ natDigitsFuel fuel n := by
  induction fuel with
  | zero => intro n; simp [natDigitsFuel]
  | succ fuel ih =>
    intro n
    have hd : ∀ k, k < 10 → ('\n' : Char) ≠ Char.ofNat (48 + k) := by decide
    rw [natDigitsFuel]
    split
    · next h => simpa using hd n h
    · next h =>
      have hk := hd (n % 10) (Nat.mod_lt n (by omega))
      simp [List.mem_append, ih (n / 10), hk]

theorem nl_not_mem_natDigits (n : Nat) : '\n' ∉ natDigits n :=
  nl_not_mem_natDigitsFuel (n + 1) n

theorem countNl_natStr (n : Nat) : ((natStr n).data).count '\n' = 0 :=
  List.count_eq_zero.mpr (nl_not_mem_natDigits n)

theorem mem_of_mem_enumFrom {l : List α} {k : Nat} {x : Nat × α}
    (h : x ∈ l.enumFrom k) : x.2 ∈ l := by
  induction l generalizing k with
  | nil => simp [List.enumFrom] at h
  | cons a as ih =>
    simp only [List.enumFrom, List.mem_cons] at h
    rcases h with h | h
    · subst h; exact List.mem_cons_self a as
    · exact List.mem_cons_of_mem a (ih h)

theorem nl_not_mem_rowBody (idx : Nat) (c : Character)
    (hn : '\n' ∉ c.name.data) (hk : '\n' ∉ c.kind.data) :
    '\n' ∉ (tableRowBody idx c).data := by
  have h1 : '\n' ∉ ("| " : String).data := by decide
  have h2 : '\n' ∉ ("   | " : String).data := by decide
  have h3 : '\n' ∉ ("      | " : String).data := by decide
  have h4 : '\n' ∉ ("       |" : String).data := by decide
  have h5 : '\n' ∉ (natStr idx).data := nl_not_mem_natDigits idx
  simp only [tableRowBody, String.data_append, List.mem_append]
  intro h
  rcases h with ((((((h | h) | h) | h) | h) | h) | h) <;>
    first
      | exact h1 h | exact h2 h | exact h3 h | exact h4 h | exact h5 h
      | exact hn h | exact hk h

theorem mk_data (s : String) : String.mk s.data = s := by
  cases s
  rfl

theorem tableRow_data (idx : Nat) (c : Character) :
    (tableRow idx c).data = (tableRowBody idx c).data ++ ['\n'] := by
  have h : ("\n" : String).data = ['\n'] := rfl
  rw [tableRow_eq_body, String.data_append, h]

theorem markdownTable_data (chars : List Character) :
    (markdownTable chars).data =
      concatL (((("| Index | Name     | Kind       |" : String).data
          :: ("|------|----------|------------|" : String).data
          :: chars.enum.map fun ic => (tableRowBody (ic.1 + 1) ic.2).data).map
        fun b => b ++ ['\n'])) := by
  have hH : tableHeader.data
      = ("| Index | Name     | Kind       |" : String).data ++ ['\n'] := by decide
  have hS : tableSeparator.data
      = ("|------|----------|------------|" : String).data ++ ['\n'] := by decide
  rw [markdownTable_eq]
  simp only [String.data_append, concatStrs_data, List.map_map, List.map_cons,
    concatL, hH, hS, Function.comp, tableRow_data, List.append_assoc]
  have hmap : List.map (String.data ∘ fun ic : Nat × Character => tableRow (ic.1 + 1) ic.2)
        chars.enum
      = List.map ((fun b => b ++ ['\n']) ∘ fun ic : Nat × Character =>
          (tableRowBody (ic.1 + 1) ic.2).data) chars.enum := by
    apply List.map_congr_left
    intro ic _
    simp [Function.comp, tableRow_data]
  rw [hmap]

theorem count_tableRow (idx : Nat) (c : Character) :
    (tableRow idx c).data.count '\n' = 1 + countNl c.name + countNl c.kind := by
  have h1 : (("| " : String).data).count '\n' = 0 := by decide
  have h2 : (("   | " : String).data).count '\n' = 0 := by decide
  have h3 : (("      | " : String).data).count '\n' = 0 := by decide
  have h4 : (("       |\n" : String).data).count '\n' = 1 := by decide
  simp only [tableRow, String.data_append, List.count_append, countNl_natStr,
    h1, h2, h3, h4, countNl]
  omega

theorem count_rows (l : List Character) :
    ∀ k : Nat,
      (concatStrs ((l.enumFrom k).map fun ic => tableRow (ic.1 + 1) ic.2)).data.count '\n'
        = (l.map fun c => 1 + countNl c.name + countNl c.kind).sum := by
  induction l with
  | nil => intro k; simp [List.enumFrom, concatStrs]
  | cons c cs ih =>
    intro k
    simp only [List.enumFrom, List.map_cons, concatStrs, String.data_append,
      List.count_append, count_tableRow, ih (k + 1), List.sum_cons]

theorem countNl_markdownTable (chars : List Character) :
    countNl (markdownTable chars)
      = 2 + (chars.map fun c => 1 + countNl c.name + countNl c.kind).sum := by
  have hH : (tableHeader.data).count '\n' = 1 := by decide
  have hS : (tableSeparator.data).count '\n' = 1 := by decide
  have hE : chars.enum = chars.enumFrom 0 := rfl
  rw [countNl, markdownTable_eq]
  simp only [String.data_append, List.count_append, hH, hS, hE, count_rows]

theorem length_le_sum_ones (l : List Nat) (h : ∀ x ∈ l, 1 ≤ x) :
    l.length ≤ l.sum := by
  induction l with
  | nil => simp
  | cons a as ih =>
    have ha := h a (List.mem_cons_self a as)
    have has := ih fun x hx => h x (List.mem_cons_of_mem a hx)
    simp only [List.length_cons, List.sum_cons]
    omega

theorem length_lt_sum_of_two (l : List Nat) (h : ∀ x ∈ l, 1 ≤ x)
    (y : Nat) (hy : y ∈ l) (h2 : 2 ≤ y) : l.length < l.sum := by
  induction l with
  | nil => simp at hy
  | cons a as ih =>
    have ha := h a (List.mem_cons_self a as)
    have has : ∀ x ∈ as, 1 ≤ x := fun x hx => h x (List.mem_cons_of_mem a hx)
    rcases List.mem_cons.mp hy with rfl | hy'
    · have := length_le_sum_ones as has
      simp only [List.length_cons, List.sum_cons]
      omega
    · have := ih has hy'
      simp only [List.length_cons, List.sum_cons]
      omega

theorem table_fileLines (chars : List Character)
    (h : ∀ c ∈ chars, '\n' ∉ c.name.data ∧ '\n' ∉ c.kind.data) :
    fileLines (markdownTable chars)
      = "| Index | Name     | Kind       |" :: "|------|----------|------------|"
          :: chars.enum.map fun ic => tableRowBody (ic.1 + 1) ic.2 := by
  have hnl : ∀ b ∈ (("| Index | Name     | Kind       |" : String).data
      :: ("|------|----------|------------|" : String).data
      :: chars.enum.map fun ic => (tableRowBody (ic.1 + 1) ic.2).data), '\n' ∉ b := by
    intro b hb
    rcases List.mem_cons.mp hb with rfl | hb
    · decide
    · rcases List.mem_cons.mp hb with rfl | hb
      · decide
      · obtain ⟨ic, hic, rfl⟩ := List.mem_map.mp hb
        have hmem : ic.2 ∈ chars := mem_of_mem_enumFrom hic
        exact nl_not_mem_rowBody _ _ (h ic.2 hmem).1 (h ic.2 hmem).2
  rw [fileLines, markdownTable_data, splitNl_bodies _ hnl]
  have hd : ∀ (l : List (List Char)), (l ++ [([] : List Char)]).dropLast = l := by
    intro l; simp
  rw [hd]
  simp only [List.map_cons, List.map_map, Function.comp]
  have hmk1 : String.mk ("| Index | Name     | Kind       |" : String).data
      = "| Index | Name     | Kind       |" := mk_data _
  have hmk2 : String.mk ("|------|----------|------------|" : String).data
      = "|------|----------|------------|" := mk_data _
  rw [hmk1, hmk2]
  simp [mk_data]

theorem runLoop_requests_all (srv : Server) (req : ChatRequest) :
    ∀ (n i : Nat) (x : ChatRequest), x ∈ (runLoop srv req i n).2.2 → x = req := by
  intro n
  induction n with
  | zero => intro i x hx; simp [runLoop] at hx
  | succ n ih =>
    intro i x hx
    cases h : srv i req with
    | err => simp only [runLoop, h, List.mem_singleton] at hx; exact hx
    | ok content =>
      cases hu : unmarshalCharacter content with
      | none => simp only [runLoop, h, hu, List.mem_singleton] at hx; exact hx
      | some c =>
        simp only [runLoop, h, hu, List.mem_cons] at hx
        rcases hx with rfl | hx
        · rfl
        · exact ih (i + 1) x hx

theorem runLoop_requests_ne_nil (srv : Server) (req : ChatRequest) (i n : Nat) :
    (runLoop srv req i (n + 1)).2.2 ≠ [] := by
  cases h : srv i req with
  | err => simp [runLoop, h]
  | ok content =>
    cases hu : unmarshalCharacter content with
    | none => simp [runLoop, h, hu]
    | some c => simp [runLoop, h, hu]

theorem runLoop_batch_src (srv : Server) (req : ChatRequest) :
    ∀ (n i : Nat) (c : Character), c ∈ (runLoop srv req i n).2.1 →
      ∃ j s, i ≤ j ∧ j < i + n ∧ srv j req = ChatResult.ok s ∧
        unmarshalCharacter s = some c := by
  intro n
  induction n with
  | zero => intro i c hc; simp [runLoop] at hc
  | succ n ih =>
    intro i c hc
    cases h : srv i req with
    | err => simp only [runLoop, h] at hc; simp at hc
    | ok content =>
      cases hu : unmarshalCharacter content with
      | none => simp only [runLoop, h, hu] at hc; simp at hc
      | some c0 =>
        simp only [runLoop, h, hu, List.mem_cons] at hc
        rcases hc with rfl | hc
        · exact ⟨i, content, Nat.le_refl i, by omega, h, hu⟩
        · obtain ⟨j, s, hij, hjn, hs, hus⟩ := ih (i + 1) c hc
          exact ⟨j, s, by omega, by omega, hs, hus⟩

theorem runLoop_fail (srv : Server) (req : ChatRequest) :
    ∀ (n i0 i : Nat), i0 ≤ i → i < i0 + n →
      (iterOutcome srv req i).isGood = false →
      (∀ j, i0 ≤ j → j < i → (iterOutcome srv req j).isGood = true) →
      ((runLoop srv req i0 n).1 = LoopStatus.chatErr i ∨
        (runLoop srv req i0 n).1 = LoopStatus.parseErr i) ∧
        (runLoop srv req i0 n).2.2.length = i - i0 + 1 := by
  intro n
  induction n with
  | zero => intro i0 i h1 h2 _ _; omega
  | succ n ih =>
    intro i0 i h1 h2 hfail hpre
    rcases Nat.eq_or_lt_of_le h1 with rfl | hlt
    · cases h : srv i0 req with
      | err =>
        refine ⟨Or.inl ?_, ?_⟩ <;> simp [runLoop, h]
      | ok content =>
        cases hu : unmarshalCharacter content with
        | none =>
          refine ⟨Or.inr ?_, ?_⟩ <;> simp [runLoop, h, hu]
        | some c =>
          exfalso
          simp only [iterOutcome, h, hu, IterRes.isGood] at hfail
          exact Bool.noConfusion hfail
    · have hg := hpre i0 (Nat.le_refl i0) hlt
      cases h : srv i0 req with
      | err =>
        simp only [iterOutcome, h, IterRes.isGood] at hg
        exact Bool.noConfusion hg
      | ok content =>
        cases hu : unmarshalCharacter content with
        | none =>
          simp only [iterOutcome, h, hu, IterRes.isGood] at hg
          exact Bool.noConfusion hg
        | some c =>
          have hrec := ih (i0 + 1) i (by omega) (by omega) hfail
            (fun j hj1 hj2 => hpre j (by omega) hj2)
          simp only [runLoop, h, hu]
          refine ⟨hrec.1, ?_⟩
          simp only [List.length_cons, hrec.2]
          omega

theorem runLoop_requests_head (srv : Server) (req : ChatRequest) (i n : Nat) :
    (runLoop srv req i (n + 1)).2.2.head? = some req := by
  cases h : srv i req with
  | err => simp [runLoop, h]
  | ok content =>
    cases hu : unmarshalCharacter content with
    | none => simp [runLoop, h, hu]
    | some c => simp [runLoop, h, hu]

theorem mem_of_head_eq {l : List α} {a : α} (h : l.head? = some a) : a ∈ l := by
  cases l with
  | nil => simp at h
  | cons x xs =>
    simp only [List.head?_cons, Option.some.injEq] at h
    rw [← h]
    exact List.mem_cons_self x xs

theorem mainRun_requests (msgs : List Message) (env : Env) (srv : Server) :
    (mainRun msgs env srv).requests
      = (runLoop srv (buildRequest (env.llm.getD "") msgs) 0 batchSize).2.2 := by
  cases hst : (runLoop srv (buildRequest (env.llm.getD "") msgs) 0 batchSize).1 <;>
    simp [mainRun, hst]

theorem mainRun_batch (msgs : List Message) (env : Env) (srv : Server) :
    (mainRun msgs env srv).batch
      = (runLoop srv (buildRequest (env.llm.getD "") msgs) 0 batchSize).2.1 := by
  cases hst : (runLoop srv (buildRequest (env.llm.getD "") msgs) 0 batchSize).1 <;>
    simp [mainRun, hst]

theorem mainRun_fatalChat (msgs : List Message) (env : Env) (srv : Server) (i : Nat)
    (h : (runLoop srv (buildRequest (env.llm.getD "") msgs) 0 batchSize).1
      = LoopStatus.chatErr i) :
    (mainRun msgs env srv).outcome = Outcome.fatalChat i ∧
      (mainRun msgs env srv).write = none := by
  simp [mainRun, h]

theorem mainRun_fatalParse (msgs : List Message) (env : Env) (srv : Server) (i : Nat)
    (h : (runLoop srv (buildRequest (env.llm.getD "") msgs) 0 batchSize).1
      = LoopStatus.parseErr i) :
    (mainRun msgs env srv).outcome = Outcome.fatalParse i ∧
      (mainRun msgs env srv).write = none := by
  simp [mainRun, h]

theorem mainRun_write (msgs : List Message) (env : Env) (srv : Server) (fw : FileWrite)
    (hw : (mainRun msgs env srv).write = some fw) :
    (mainRun msgs env srv).outcome = Outcome.completed ∧
      fw.path = "./characters." ++ kindConst ++ ".md" ∧
      fw.perm = 0o644 ∧
      fw.content = markdownTable (mainRun msgs env srv).batch := by
  cases hst : (runLoop srv (buildRequest (env.llm.getD "") msgs) 0 batchSize).1 with
  | chatErr i => simp [mainRun, hst] at hw
  | parseErr i => simp [mainRun, hst] at hw
  | done =>
    simp only [mainRun, hst, Option.some.injEq] at hw
    refine ⟨by simp [mainRun, hst], ?_, ?_, ?_⟩ <;> rw [← hw]
    rw [mainRun_batch msgs env srv]

/-! ## Concrete fixtures for counterexamples and witnesses -/

/-- A fully-populated environment. -/
def env0 : Env := ⟨some "http://localhost:11434", some "qwen2.5:0.5b"⟩

/-- An environment with the `LLM` variable unset. -/
def envNoLLM : Env := ⟨some "http://localhost:11434", none⟩

/-- The wire content of a well-formed response object. -/
def contentOf (n k : String) : String :=
  Json.marshal (Json.obj [("name", Json.str n), ("kind", Json.str k)])

/-- A server that always answers with the same well-formed object. -/
def srvConst (n k : String) : Server := fun _ _ => ChatResult.ok (contentOf n k)

/-- A well-behaved server. -/
def srvThorin : Server := srvConst "Thorin" "Dwarf"

/-- A server answering `Karl / knight` although `Dwarf` was requested. -/
def srvKarl : Server := srvConst "Karl" "knight"

/-- A server whose responses are schema-valid objects lacking `name`. -/
def srvNoName : Server := fun _ _ =>
  ChatResult.ok (Json.marshal (Json.obj [("kind", Json.str "Elf")]))

/-- A server returning malformed content on iteration 3 (index 2). -/
def srvNotJson3 : Server := fun i _ =>
  if i = 2 then ChatResult.ok "not-json" else ChatResult.ok (contentOf "Thorin" "Dwarf")

/-- A server whose returned name contains a newline. -/
def srvNlName : Server := fun _ _ => ChatResult.ok (contentOf "a\nb" "Elf")

/-! ## Claims -/

/-- C1 (counterexample).  The claim says a response JSON object missing the
`name` member makes validation fail with a parse-class error and abort the
batch.  In fact `json.Unmarshal` accepts the object
`\x7b"kind":"Elf"\x7d` (serialized here by `Json.marshal`), producing a
record with the zero value `""` for `name`, and a run fed only such
responses completes normally. -/
theorem c1_missing_name_accepted :
    unmarshalCharacter (Json.marshal (Json.obj [("kind", Json.str "Elf")]))
      = some ⟨"", "Elf"⟩ ∧
    (mainRun02 env0 srvNoName).outcome = Outcome.completed := by
  exact ⟨by decide, by decide⟩

/-- C1 (amended).  The Response Validator (`json.Unmarshal` into
`Character`) rejects non-object JSON values other than `null` (`null`
yields the zero record), and rejects a present `name`/`kind` member whose
value is not a string (again excepting `null`); but it does not enforce
presence: an object missing `name` (or `kind`) is accepted and the missing
field keeps the empty string.  The batch does not abort on such
responses. -/
theorem c1_validator_behaviour :
    (∀ s, decodeCharacter (Json.str s) = none) ∧
    (∀ b, decodeCharacter (Json.bool b) = none) ∧
    (∀ q, decodeCharacter (Json.num q) = none) ∧
    (∀ xs, decodeCharacter (Json.arr xs) = none) ∧
    decodeCharacter Json.null = some ⟨"", ""⟩ ∧
    (∀ k, decodeCharacter (Json.obj [("kind", Json.str k)]) = some ⟨"", k⟩) ∧
    (∀ n, decodeCharacter (Json.obj [("name", Json.str n)]) = some ⟨n, ""⟩) ∧
    (∀ k q, decodeCharacter (Json.obj [("name", Json.num q), ("kind", Json.str k)])
      = none) ∧
    (∀ n q, decodeCharacter (Json.obj [("name", Json.str n), ("kind", Json.num q)])
      = none) := by
  exact ⟨fun s => rfl, fun b => rfl, fun q => rfl, fun xs => rfl, rfl,
    fun k => rfl, fun n => rfl, fun k q => rfl, fun n q => rfl⟩

/-- C2 (counterexample).  The claim says every record reaching the batch
has non-empty `name` and `kind`.  A server answering the schema-violating
object `\x7b"kind":"Elf"\x7d` drives a completed run whose batch consists
of records with empty `name`. -/
theorem c2_empty_name_in_batch :
    (mainRun02 env0 srvNoName).outcome = Outcome.completed ∧
    (⟨"", "Elf"⟩ : Character) ∈ (mainRun02 env0 srvNoName).batch ∧
    (⟨"", "Elf"⟩ : Character).name = "" := by
  exact ⟨by decide, by decide, rfl⟩

/-- C2 (amended).  What is true of the accumulated batch: every record in
it is exactly the result of a successful `json.Unmarshal` of some response
content (fields may be empty when members were missing); no further
constraint is enforced. -/
theorem c2_batch_from_unmarshal (env : Env) (srv : Server) (c : Character)
    (hc : c ∈ (mainRun02 env srv).batch) :
    ∃ i s, srv i (req02 env) = ChatResult.ok s ∧ unmarshalCharacter s = some c := by
  have hb : (mainRun02 env srv).batch
      = (runLoop srv (req02 env) 0 batchSize).2.1 := by
    simp only [mainRun02, req02]
    exact mainRun_batch messagesMinimal env srv
  rw [hb] at hc
  obtain ⟨j, s, _, _, hs, hus⟩ := runLoop_batch_src srv (req02 env) batchSize 0 c hc
  exact ⟨j, s, hs, hus⟩

/-- C2 (witness): the amended theorem applied to the record `("", "Elf")`
of the concrete run driven by `srvNoName`. -/
theorem c2_batch_from_unmarshal_witness :
    ∃ i s, srvNoName i (req02 env0) = ChatResult.ok s ∧
      unmarshalCharacter s = some ⟨"", "Elf"⟩ :=
  c2_batch_from_unmarshal env0 srvNoName ⟨"", "Elf"⟩ (by decide)

/-- C3 (counterexample).  The claim says a missing `LLM` variable causes a
fatal configuration error with no chat request ever issued.  In fact the
program performs no check: with `LLM` unset and a well-behaved server the
run completes (exit 0) after issuing all 15 requests. -/
theorem c3_no_llm_check :
    (mainRun02 envNoLLM srvThorin).outcome = Outcome.completed ∧
    (mainRun02 envNoLLM srvThorin).requests.length = batchSize := by
  exact ⟨by decide, by decide⟩

/-- C3 (amended).  When `LLM` is unset, `os.Getenv` yields `""`, which is
forwarded unchecked as the model id of every issued request; at least one
request is always issued (the loop bound is 15), and the process fails only
if the server rejects the call. -/
theorem c3_empty_model_forwarded (host : Option String) (srv : Server) :
    (mainRun02 ⟨host, none⟩ srv).requests ≠ [] ∧
    ∀ r ∈ (mainRun02 ⟨host, none⟩ srv).requests, r.model = "" := by
  have hr : (mainRun02 ⟨host, none⟩ srv).requests
      = (runLoop srv (buildRequest "" messagesMinimal) 0 batchSize).2.2 := by
    simp only [mainRun02]
    exact mainRun_requests messagesMinimal ⟨host, none⟩ srv
  constructor
  · rw [hr]
    exact runLoop_requests_ne_nil srv (buildRequest "" messagesMinimal) 0 14
  · intro r hmem
    rw [hr] at hmem
    have := runLoop_requests_all srv (buildRequest "" messagesMinimal)
      batchSize 0 r hmem
    rw [this]
    rfl

/-- C3 (witness): the amended theorem at a concrete environment and
server. -/
theorem c3_empty_model_forwarded_witness :
    (mainRun02 ⟨some "http://localhost:11434", none⟩ srvThorin).requests ≠ [] ∧
    ∀ r ∈ (mainRun02 ⟨some "http://localhost:11434", none⟩ srvThorin).requests,
      r.model = "" :=
  c3_empty_model_forwarded (some "http://localhost:11434") srvThorin

/-- C7.  Kind drift is not an error: a schema-valid object is decoded into
a record with whatever `kind` string the server returned (first conjunct,
for arbitrary `name`/`kind`), and concretely a run requesting `Dwarf`
(`kindConst`) but answered `Karl / knight` throughout completes with the
mismatched kind preserved verbatim in the batch and in the written
file. -/
theorem c7_kind_drift_preserved :
    (∀ n k : String,
      decodeCharacter (Json.obj [("name", Json.str n), ("kind", Json.str k)])
        = some ⟨n, k⟩) ∧
    kindConst = "Dwarf" ∧
    (mainRun02 env0 srvKarl).outcome = Outcome.completed ∧
    (mainRun02 env0 srvKarl).batch = List.replicate batchSize ⟨"Karl", "knight"⟩ ∧
    (mainRun02 env0 srvKarl).write
      = some ⟨"./characters.Dwarf.md",
          markdownTable (List.replicate batchSize ⟨"Karl", "knight"⟩), 0o644⟩ := by
  have hst : (runLoop srvKarl (buildRequest (env0.llm.getD "") messagesMinimal)
      0 batchSize).1 = LoopStatus.done := by decide
  have hb : (runLoop srvKarl (buildRequest (env0.llm.getD "") messagesMinimal)
      0 batchSize).2.1 = List.replicate batchSize ⟨"Karl", "knight"⟩ := by decide
  refine ⟨fun n k => rfl, rfl, by decide, ?_, ?_⟩
  · show (mainRun messagesMinimal env0 srvKarl).batch
      = List.replicate batchSize ⟨"Karl", "knight"⟩
    rw [mainRun_batch, hb]
  · show (mainRun messagesMinimal env0 srvKarl).write
      = some ⟨"./characters.Dwarf.md",
          markdownTable (List.replicate batchSize ⟨"Karl", "knight"⟩), 0o644⟩
    simp only [mainRun, hst, hb]
    rfl

/-- C8.  The Guided profile (`03-generate-names`) produces exactly the
three-message list `[system(persona), system(style-rules), user(task)]`,
with the user content being the template
"Generate a random name for an <kind> (kind always equals <kind>)."
instantiated at the selected kind. -/
theorem c8_guided_messages :
    messagesGuided
      = [⟨"system", systemInstructions⟩,
         ⟨"system", generationInstructions⟩,
         ⟨"user", "Generate a random name for an Dwarf (kind always equals Dwarf)."⟩] ∧
    (∀ k, userContent k
      = "Generate a random name for an " ++ k ++ " (kind always equals " ++ k ++ ").") ∧
    messagesGuided.map Message.role = ["system", "system", "user"] := by
  exact ⟨rfl, fun k => rfl, rfl⟩

theorem schema_roundtrip : parseJson (Json.marshal schemaJson) = some schemaJson := by
  rfl

/-- C4.  Every chat request issued in a run carries `stream = false`, a
`format` payload whose parsed form equals the declared schema, and all
configured decoding options verbatim: temperature 1.7, repeat_last_n 2,
repeat_penalty 2.2, top_k 10, top_p 0.9. -/
theorem c4_request_content (env : Env) (srv : Server) :
    ∀ r ∈ (mainRun02 env srv).requests,
      r.stream = false ∧
      parseJson r.format = some schemaJson ∧
      r.options = decodingOptions ∧
      r.options = [("temperature", Json.num 1.7), ("repeat_last_n", Json.num 2),
        ("repeat_penalty", Json.num 2.2), ("top_k", Json.num 10),
        ("top_p", Json.num 0.9)] := by
  intro r hr
  have hreq : (mainRun02 env srv).requests
      = (runLoop srv (buildRequest (env.llm.getD "") messagesMinimal) 0 batchSize).2.2 := by
    simp only [mainRun02]
    exact mainRun_requests messagesMinimal env srv
  rw [hreq] at hr
  have heq := runLoop_requests_all srv
    (buildRequest (env.llm.getD "") messagesMinimal) batchSize 0 r hr
  rw [heq]
  exact ⟨rfl, schema_roundtrip, rfl, rfl⟩

/-- C4 (witness): the request properties at the concrete request issued
first in a run with a fully-populated environment. -/
theorem c4_request_content_witness :
    (req02 env0).stream = false ∧
    parseJson (req02 env0).format = some schemaJson ∧
    (req02 env0).options = decodingOptions ∧
    (req02 env0).options = [("temperature", Json.num 1.7), ("repeat_last_n", Json.num 2),
      ("repeat_penalty", Json.num 2.2), ("top_k", Json.num 10),
      ("top_p", Json.num 0.9)] := by
  have hreq : (mainRun02 env0 srvThorin).requests
      = (runLoop srvThorin (buildRequest (env0.llm.getD "") messagesMinimal)
          0 batchSize).2.2 := by
    simp only [mainRun02]
    exact mainRun_requests messagesMinimal env0 srvThorin
  have hmem : req02 env0 ∈ (mainRun02 env0 srvThorin).requests := by
    rw [hreq]
    exact mem_of_head_eq (runLoop_requests_head srvThorin
      (buildRequest (env0.llm.getD "") messagesMinimal) 0 14)
  exact c4_request_content env0 srvThorin (req02 env0) hmem

/-- C5 (counterexample).  The claim quantifies over every completed run,
but a completed run whose server returned a name containing a newline
produces a file with more than `batch_size + 2` (newline-terminated)
lines: here the batch has length 15 yet the file holds 32 lines, not
17. -/
theorem c5_newline_breaks_line_count :
    (mainRun02 env0 srvNlName).outcome = Outcome.completed ∧
    (mainRun02 env0 srvNlName).batch.length = batchSize ∧
    ((mainRun02 env0 srvNlName).write.map fun fw => countNl fw.content) = some 32 ∧
    (32 : Nat) ≠ batchSize + 2 := by
  have hst : (runLoop srvNlName (buildRequest (env0.llm.getD "") messagesMinimal)
      0 batchSize).1 = LoopStatus.done := by decide
  have hb : (runLoop srvNlName (buildRequest (env0.llm.getD "") messagesMinimal)
      0 batchSize).2.1 = List.replicate batchSize ⟨"a\nb", "Elf"⟩ := by decide
  refine ⟨by decide, ?_, ?_, by decide⟩
  · show (mainRun messagesMinimal env0 srvNlName).batch.length = batchSize
    rw [mainRun_batch, hb]
    simp
  · show ((mainRun messagesMinimal env0 srvNlName).write.map
        fun fw => countNl fw.content) = some 32
    simp only [mainRun, hst, hb, Option.map_some']
    rw [countNl_markdownTable]
    have h1 : countNl "a\nb" = 1 := by decide
    have h2 : countNl "Elf" = 0 := by decide
    simp [List.map_replicate, List.sum_replicate, h1, h2, batchSize, smul_eq_mul]

/-- C5 (amended).  Provided no record field contains a newline, the table
written for a batch consists of exactly `batch_size + 2` lines: the header
line, the separator line, then one data row per record in batch order with
1-based increasing indices; the row for `(Elara, Elf)` at index 1 is
exactly the literal of the spec; and the file content written by a
completed run is exactly the table of its batch. -/
theorem c5_table_shape :
    (∀ chars : List Character,
      (∀ c ∈ chars, '\n' ∉ c.name.data ∧ '\n' ∉ c.kind.data) →
      fileLines (markdownTable chars)
        = "| Index | Name     | Kind       |" :: "|------|----------|------------|"
            :: chars.enum.map (fun ic => tableRowBody (ic.1 + 1) ic.2) ∧
      (fileLines (markdownTable chars)).length = chars.length + 2) ∧
    tableRowBody 1 ⟨"Elara", "Elf"⟩ = "| 1   | Elara      | Elf       |" ∧
    (∀ env srv fw, (mainRun02 env srv).write = some fw →
      fw.content = markdownTable (mainRun02 env srv).batch) := by
  refine ⟨?_, by decide, ?_⟩
  · intro chars h
    have hl := table_fileLines chars h
    refine ⟨hl, ?_⟩
    rw [hl]
    simp [List.enum_length]
  · intro env srv fw hw
    exact (mainRun_write messagesMinimal env srv fw hw).2.2.2

/-- C5 (witness): the amended line structure at a singleton batch. -/
theorem c5_table_shape_witness :
    fileLines (markdownTable [⟨"Thorin", "Dwarf"⟩])
      = ["| Index | Name     | Kind       |", "|------|----------|------------|",
         "| 1   | Thorin      | Dwarf       |"] := by
  have h := (c5_table_shape.1 [⟨"Thorin", "Dwarf"⟩] (by decide)).1
  rw [h]
  rfl

/-- C6.  If every iteration before `i` succeeds and iteration `i` fails
(chat error or unparseable content), the run ends fatally at iteration `i`
(non-zero exit), exactly `i + 1` requests were issued (the batch stops
immediately), and no file write is performed — earlier records are never
flushed. -/
theorem c6_iteration_failure_aborts (env : Env) (srv : Server) (i : Nat)
    (hi : i < batchSize)
    (hfail : (iterOutcome srv (req02 env) i).isGood = false)
    (hpre : ∀ j, j < i → (iterOutcome srv (req02 env) j).isGood = true) :
    ((mainRun02 env srv).outcome = Outcome.fatalChat i ∨
      (mainRun02 env srv).outcome = Outcome.fatalParse i) ∧
    (mainRun02 env srv).write = none ∧
    (mainRun02 env srv).requests.length = i + 1 := by
  have hrl := runLoop_fail srv (req02 env) batchSize 0 i (Nat.zero_le i)
    (by omega) hfail (fun j _ hj => hpre j hj)
  have hreq : (mainRun02 env srv).requests
      = (runLoop srv (req02 env) 0 batchSize).2.2 := by
    simp only [mainRun02, req02]
    exact mainRun_requests messagesMinimal env srv
  have hlen : (mainRun02 env srv).requests.length = i + 1 := by
    rw [hreq, hrl.2]
    omega
  rcases hrl.1 with hst | hst
  · have hm := mainRun_fatalChat messagesMinimal env srv i hst
    exact ⟨Or.inl hm.1, hm.2, hlen⟩
  · have hm := mainRun_fatalParse messagesMinimal env srv i hst
    exact ⟨Or.inr hm.1, hm.2, hlen⟩

/-- C6 (witness): the scenario of the spec — malformed content `not-json`
on iteration 3 (index 2) aborts the batch after 3 requests with no file
written. -/
theorem c6_iteration_failure_aborts_witness :
    ((mainRun02 env0 srvNotJson3).outcome = Outcome.fatalChat 2 ∨
      (mainRun02 env0 srvNotJson3).outcome = Outcome.fatalParse 2) ∧
    (mainRun02 env0 srvNotJson3).write = none ∧
    (mainRun02 env0 srvNotJson3).requests.length = 3 :=
  c6_iteration_failure_aborts env0 srvNotJson3 2 (by decide) (by decide)
    (by decide)

/-- C9.  Whatever the server did, if the run wrote a file then it wrote
exactly one, at `./characters.<kind>.md` (here `./characters.Dwarf.md`),
with permission `0644`, and its content is the full table of the
accumulated batch written in one piece. -/
theorem c9_write_properties (env : Env) (srv : Server) (fw : FileWrite)
    (hw : (mainRun02 env srv).write = some fw) :
    fw.path = "./characters." ++ kindConst ++ ".md" ∧
    fw.path = "./characters.Dwarf.md" ∧
    fw.perm = 0o644 ∧
    fw.content = markdownTable (mainRun02 env srv).batch := by
  have h := mainRun_write messagesMinimal env srv fw hw
  exact ⟨h.2.1, h.2.1.trans rfl, h.2.2.1, h.2.2.2⟩

/-- C9 (witness): the write of a concrete completed run. -/
theorem c9_write_properties_witness :
    ∃ fw, (mainRun02 env0 srvThorin).write = some fw ∧
      fw.path = "./characters.Dwarf.md" ∧ fw.perm = 0o644 := by
  have hst : (runLoop srvThorin (buildRequest (env0.llm.getD "") messagesMinimal)
      0 batchSize).1 = LoopStatus.done := by decide
  have hw : (mainRun02 env0 srvThorin).write
      = some ⟨"./characters." ++ kindConst ++ ".md",
          markdownTable (runLoop srvThorin
            (buildRequest (env0.llm.getD "") messagesMinimal) 0 batchSize).2.1,
          0o644⟩ := by
    simp only [mainRun02, mainRun, hst]
  obtain ⟨_, hp2, hperm, _⟩ := c9_write_properties env0 srvThorin _ hw
  exact ⟨_, hw, hp2, hperm⟩

/-- C10.  The table writer inserts field bytes verbatim (no escaping): the
newline count of the table is exactly `2 + Σ (1 + newlines(name) +
newlines(kind))`; a concrete record containing a newline and a pipe shows
the raw bytes in the emitted file; and any record with a newline in its
name makes the file exceed `batch_size + 2` lines. -/
theorem c10_verbatim_rows :
    (∀ chars : List Character,
      countNl (markdownTable chars)
        = 2 + (chars.map fun c => 1 + countNl c.name + countNl c.kind).sum) ∧
    markdownTable [⟨"El\nara", "E|f"⟩]
      = "| Index | Name     | Kind       |\n|------|----------|------------|\n| 1   | El\nara      | E|f       |\n" ∧
    (∀ (chars : List Character) (c : Character), c ∈ chars → '\n' ∈ c.name.data →
      chars.length + 2 < countNl (markdownTable chars)) := by
  refine ⟨countNl_markdownTable, by decide, ?_⟩
  intro chars c hc hnl
  rw [countNl_markdownTable]
  have hone : ∀ x ∈ chars.map (fun c => 1 + countNl c.name + countNl c.kind),
      1 ≤ x := by
    intro x hx
    obtain ⟨c0, _, rfl⟩ := List.mem_map.mp hx
    omega
  have hmem := List.mem_map_of_mem (fun c => 1 + countNl c.name + countNl c.kind) hc
  have hpos : 0 < countNl c.name := List.count_pos_iff.mpr hnl
  have h2 : 2 ≤ (fun c => 1 + countNl c.name + countNl c.kind) c := by
    show 2 ≤ 1 + countNl c.name + countNl c.kind
    omega
  have hlt := length_lt_sum_of_two _ hone _ hmem h2
  have hlen : (chars.map (fun c => 1 + countNl c.name + countNl c.kind)).length
      = chars.length := List.length_map _ _
  omega

/-- C10 (witness): the strict line-count excess at a concrete record whose
name embeds a newline. -/
theorem c10_verbatim_rows_witness :
    ([⟨"a\nb", "x"⟩] : List Character).length + 2
      < countNl (markdownTable [⟨"a\nb", "x"⟩]) :=
  c10_verbatim_rows.2.2 [⟨"a\nb", "x"⟩] ⟨"a\nb", "x"⟩ (by decide) (by decide)

end GenNames
